import Mathlib

/-!
Verification development for the `cimdea` tabulation core.

We shallowly embed the Rust sources (`conventions.rs`, `defaults.rs`,
`json_schema.rs`, `request.rs`, `tabulate.rs`) as Lean definitions and prove
properties about them.  Rust `HashMap<String, usize>` values are embedded as
association lists with last-writer-wins insert, `HashSet<usize>` values as
duplicate-free `List Nat` with insert-if-absent, `Vec<T>` as `List T`, and a
Rust `panic!` / out-of-bounds index / `todo!` as `none` (or a dedicated
`panicked` outcome) of an `Option` / outcome type.
-/

namespace Cimdea

/-! ## json_schema.rs -/

/-- Modelled from the spec: `mderror.rs` is not among the provided sources.
The spec describes "a single sum type `MdError`" carrying a free-form
`Msg(String)` among other cases; only `Msg` is used by the sources at hand. -/
inductive MdError where
  | Msg (s : String) : MdError
deriving Repr, DecidableEq

/-- `CategoryBinRaw` from `json_schema.rs`: a raw `(code, value_label, low?, high?)`
record deserialized from the request JSON. -/
structure CategoryBinRaw where
  code : Nat
  value_label : String
  low : Option Int
  high : Option Int
deriving Repr, DecidableEq

/-- `CategoryBin` from `json_schema.rs`. -/
inductive CategoryBin where
  | LessThan (value : Int) (label : String)
  | Range (low : Int) (high : Int) (label : String)
  | MoreThan (value : Int) (label : String)
deriving Repr, DecidableEq

/-- The `format!` message produced for crossed bounds (identical format string in
`TryFrom<CategoryBinRaw> for CategoryBin` and in `CategoryBin::new`). -/
def crossedBoundsMsg (low high : Int) : String :=
  "category_bins: a low of " ++ toString low ++ " and high of " ++ toString high
    ++ " do not satisfy low <= high"

/-- The error message for a raw bin with neither bound set (identical literal in
both constructors in `json_schema.rs`). -/
def noBoundsMsg : String :=
  "category_bins: must have low, high, or both set to some value"

/-- `impl TryFrom<CategoryBinRaw> for CategoryBin`, `json_schema.rs` lines 28-56. -/
def CategoryBin.tryFromRaw (value : CategoryBinRaw) : Except MdError CategoryBin :=
  match value.low, value.high with
  | some low, some high =>
      if high < low then
        .error (.Msg (crossedBoundsMsg low high))
      else
        .ok (.Range low high value.value_label)
  | none, some high => .ok (.LessThan high value.value_label)
  | some low, none => .ok (.MoreThan low value.value_label)
  | none, none => .error (.Msg noBoundsMsg)

/-- `CategoryBin::new`, `json_schema.rs` lines 59-82. -/
def CategoryBin.new (low high : Option Int) (label : String) : Except MdError CategoryBin :=
  match low, high with
  | some low, some high =>
      if high < low then
        .error (.Msg (crossedBoundsMsg low high))
      else
        .ok (.Range low high label)
  | none, some high => .ok (.LessThan high label)
  | some low, none => .ok (.MoreThan low label)
  | none, none => .error (.Msg noBoundsMsg)

/-- `CategoryBin::within`, `json_schema.rs` lines 84-91. -/
def CategoryBin.within (b : CategoryBin) (test_value : Int) : Bool :=
  match b with
  | .LessThan value _ => test_value < value
  | .Range low high _ => low ≤ test_value && test_value ≤ high
  | .MoreThan value _ => value < test_value

/-- The semantics of a raw `(low?, high?)` bound pair as the spec states it:
closed `Range` when both bounds are present, strict `LessThan` when only the
high bound is present, strict `MoreThan` when only the low bound is present.
Used only to state the round-trip claim; not part of the embedding. -/
def rawBoundsHold (low high : Option Int) (x : Int) : Prop :=
  match low, high with
  | some l, some h => l ≤ x ∧ x ≤ h
  | none, some h => x < h
  | some l, none => l < x
  | none, none => False

instance : ∀ (low high : Option Int) (x : Int), Decidable (rawBoundsHold low high x)
  | some l, some h, x => inferInstanceAs (Decidable (l ≤ x ∧ x ≤ h))
  | none, some h, x => inferInstanceAs (Decidable (x < h))
  | some l, none, x => inferInstanceAs (Decidable (l < x))
  | none, none, _ => inferInstanceAs (Decidable False)

/-! ## conventions.rs: the metadata store -/

/-- Modelled from the spec: `ipums_metadata_model.rs` is not among the provided
sources. The spec gives an IPUMS dataset a name, a dense integer id assigned on
first insertion, an optional month/year and an optional label. -/
structure IpumsDataset where
  name : String
  id : Nat
  year : Option Nat := none
  month : Option Nat := none
  label : Option String := none
deriving Repr, DecidableEq

/-- Modelled from the spec: `ipums_metadata_model.rs` is not among the provided
sources. The spec gives an IPUMS variable a name, a dense integer id, a data
type, an optional (start-column, width) formatting hint, an optional
general-recode width and an optional record-type affinity. -/
structure IpumsVariable where
  name : String
  id : Nat
  data_type : Option String := none
  formatting : Option (Nat × Nat) := none
  general_width : Option Nat := none
  record_type : Option String := none
deriving Repr, DecidableEq

/-- Lookup in a Rust `HashMap<String, usize>` embedded as an association list. -/
def hmGet (m : List (String × Nat)) (k : String) : Option Nat :=
  match m with
  | [] => none
  | (k0, v0) :: rest => if k0 = k then some v0 else hmGet rest k

/-- Overwriting insert into a Rust `HashMap<String, usize>` embedded as an
association list. -/
def hmInsert (m : List (String × Nat)) (k : String) (v : Nat) : List (String × Nat) :=
  match m with
  | [] => [(k, v)]
  | (k0, v0) :: rest => if k0 = k then (k, v) :: rest else (k0, v0) :: hmInsert rest k v

/-- Insert into a Rust `HashSet<usize>` embedded as a duplicate-free list. -/
def hsInsert (s : List Nat) (x : Nat) : List Nat :=
  if x ∈ s then s else s ++ [x]

/-- The shared body of `VariablesForDataset::add_or_update` (`conventions.rs`
lines 241-246) and `DatasetsForVariable::add_or_update` (lines 266-276): when
`get(idx)` is `None`, push a single empty set, then insert `elem` into the set
at position `idx`. The Rust slice index panics when `idx` is out of bounds;
the panic is embedded as `none`. -/
def adjUpdate (outer : List (List Nat)) (idx elem : Nat) : Option (List (List Nat)) :=
  let outer1 :=
    match outer.get? idx with
    | none => outer ++ [[]]
    | some _ => outer
  match outer1.get? idx with
  | some inner => some (outer1.set idx (hsInsert inner elem))
  | none => none

/-- Membership in one of the bipartite adjacency structures: position `idx` of
the outer sequence exists and holds `elem`. -/
def adjMem (outer : List (List Nat)) (idx elem : Nat) : Prop :=
  ∃ inner, outer.get? idx = some inner ∧ elem ∈ inner

/-- `VariablesForDataset`, `conventions.rs` lines 229-251: for each dataset id,
the set of variable ids available in it. -/
structure VariablesForDataset where
  ipums_variables_by_dataset_id : List (List Nat)
deriving Repr, DecidableEq

/-- `VariablesForDataset::add_or_update`, `conventions.rs` lines 241-246. -/
def VariablesForDataset.add_or_update (s : VariablesForDataset)
    (dataset_id variable_id : Nat) : Option VariablesForDataset :=
  (adjUpdate s.ipums_variables_by_dataset_id dataset_id variable_id).map VariablesForDataset.mk

/-- `VariablesForDataset::for_dataset`, `conventions.rs` lines 248-250. -/
def VariablesForDataset.for_dataset (s : VariablesForDataset) (dataset_id : Nat) :
    Option (List Nat) :=
  s.ipums_variables_by_dataset_id.get? dataset_id

/-- The set `VariablesForDataset` holds variable `variable_id` for dataset
`dataset_id`. -/
def VariablesForDataset.holdsPair (s : VariablesForDataset)
    (dataset_id variable_id : Nat) : Prop :=
  ∃ inner, s.for_dataset dataset_id = some inner ∧ variable_id ∈ inner

/-- `DatasetsForVariable`, `conventions.rs` lines 254-281: for each variable id,
the set of dataset ids carrying it. -/
structure DatasetsForVariable where
  ipums_datasets_by_variable_id : List (List Nat)
deriving Repr, DecidableEq

/-- `DatasetsForVariable::add_or_update`, `conventions.rs` lines 266-276: note
it indexes the outer sequence by `variable_id` and inserts `dataset_id`. -/
def DatasetsForVariable.add_or_update (s : DatasetsForVariable)
    (dataset_id variable_id : Nat) : Option DatasetsForVariable :=
  (adjUpdate s.ipums_datasets_by_variable_id variable_id dataset_id).map DatasetsForVariable.mk

/-- `DatasetsForVariable::for_variable`, `conventions.rs` lines 278-280. -/
def DatasetsForVariable.for_variable (s : DatasetsForVariable) (var_id : Nat) :
    Option (List Nat) :=
  s.ipums_datasets_by_variable_id.get? var_id

/-- The set `DatasetsForVariable` holds dataset `dataset_id` for variable
`variable_id`. -/
def DatasetsForVariable.holdsPair (s : DatasetsForVariable)
    (variable_id dataset_id : Nat) : Prop :=
  ∃ inner, s.for_variable variable_id = some inner ∧ dataset_id ∈ inner

/-- `MetadataEntities`, `conventions.rs` lines 149-162. -/
structure MetadataEntities where
  datasets_by_name : List (String × Nat)
  variables_by_name : List (String × Nat)
  available_variables : VariablesForDataset
  available_datasets : DatasetsForVariable
  variables_index : List IpumsVariable
  datasets_index : List IpumsDataset
deriving Repr, DecidableEq

/-- `MetadataEntities::new`, `conventions.rs` lines 216-225. -/
def MetadataEntities.new : MetadataEntities :=
  { datasets_by_name := []
    variables_by_name := []
    available_variables := ⟨[]⟩
    available_datasets := ⟨[]⟩
    variables_index := []
    datasets_index := [] }

/-- `MetadataEntities::next_dataset_id`, `conventions.rs` lines 165-167. -/
def MetadataEntities.next_dataset_id (s : MetadataEntities) : Nat :=
  s.datasets_index.length

/-- `MetadataEntities::next_variable_id`, `conventions.rs` lines 169-171. -/
def MetadataEntities.next_variable_id (s : MetadataEntities) : Nat :=
  s.variables_index.length

/-- Shorthand for the outer sequence of the variables-for-dataset side. -/
def MetadataEntities.vfd (s : MetadataEntities) : List (List Nat) :=
  s.available_variables.ipums_variables_by_dataset_id

/-- Shorthand for the outer sequence of the datasets-for-variable side. -/
def MetadataEntities.dfv (s : MetadataEntities) : List (List Nat) :=
  s.available_datasets.ipums_datasets_by_variable_id

/-- `MetadataEntities::create_variable`, `conventions.rs` lines 198-205:
assigns the next dense id, overwrites the name map entry, appends to
`variables_index`, and returns the new id. -/
def MetadataEntities.create_variable (s : MetadataEntities) (var : IpumsVariable) :
    MetadataEntities × Nat :=
  let id := s.next_variable_id
  let new_var := { var with id := id }
  ({ s with
      variables_by_name := hmInsert s.variables_by_name new_var.name id
      variables_index := s.variables_index ++ [new_var] }, id)

/-- `MetadataEntities::create_dataset`, `conventions.rs` lines 207-214. -/
def MetadataEntities.create_dataset (s : MetadataEntities) (ds : IpumsDataset) :
    MetadataEntities × Nat :=
  let id := s.next_dataset_id
  let new_ds := { ds with id := id }
  ({ s with
      datasets_by_name := hmInsert s.datasets_by_name new_ds.name id
      datasets_index := s.datasets_index ++ [new_ds] }, id)

/-- `MetadataEntities::connect`, `conventions.rs` lines 300-305: inserts the
pair into both adjacency structures; a panic in either insertion aborts. -/
def MetadataEntities.connect (s : MetadataEntities) (dataset_id variable_id : Nat) :
    Option MetadataEntities :=
  match s.available_variables.add_or_update dataset_id variable_id with
  | none => none
  | some av =>
    match s.available_datasets.add_or_update dataset_id variable_id with
    | none => none
    | some ad => some { s with available_variables := av, available_datasets := ad }

/-- The first binding of `MetadataEntities::add_dataset_variable`
(`conventions.rs` lines 311-315): reuse the existing id when the dataset name
is registered, otherwise create the dataset. -/
def MetadataEntities.upsert_dataset (s : MetadataEntities) (dataset : IpumsDataset) :
    MetadataEntities × Nat :=
  match hmGet s.datasets_by_name dataset.name with
  | some i => (s, i)
  | none => s.create_dataset dataset

/-- The second binding of `MetadataEntities::add_dataset_variable`
(`conventions.rs` lines 317-321): reuse the existing id when the variable name
is registered, otherwise create the variable. -/
def MetadataEntities.upsert_variable (s : MetadataEntities) (var : IpumsVariable) :
    MetadataEntities × Nat :=
  match hmGet s.variables_by_name var.name with
  | some i => (s, i)
  | none => s.create_variable var

/-- `MetadataEntities::add_dataset_variable`, `conventions.rs` lines 307-323:
upsert the dataset by name, upsert the variable by name, then connect the two
ids. -/
def MetadataEntities.add_dataset_variable (s : MetadataEntities)
    (dataset : IpumsDataset) (var : IpumsVariable) : Option MetadataEntities :=
  let dres : MetadataEntities × Nat := s.upsert_dataset dataset
  let vres : MetadataEntities × Nat := dres.1.upsert_variable var
  vres.1.connect dres.2 vres.2

/-- The stores reachable from the empty store by successful
`add_dataset_variable` calls (a Rust panic aborts the program, so no store
results from a panicking call). -/
inductive Reach : MetadataEntities → Prop where
  | base : Reach MetadataEntities.new
  | step {s s' : MetadataEntities} {d : IpumsDataset} {v : IpumsVariable} :
      Reach s → s.add_dataset_variable d v = some s' → Reach s'

/-! ## ipums_data_model carriers, defaults.rs -/

/-- Modelled from the spec: `ipums_data_model.rs` is not among the provided
sources. A record weight is a column name plus an implied decimal scale
(constructed in `defaults.rs` as `RecordWeight::new("HHWT", 100)`). -/
structure RecordWeight where
  name : String
  scale : Nat
deriving Repr, DecidableEq

/-- `RecordWeight::new` as used by `defaults.rs`. -/
def RecordWeight.new (name : String) (scale : Nat) : RecordWeight :=
  ⟨name, scale⟩

/-- `RecordType` with the fields populated by `defaults.rs` lines 11-29:
short name, one-character code, unique id column, (parent code, foreign key)
pairs, and an optional weight. -/
structure RecordType where
  name : String
  value : String
  unique_id : String
  foreign_keys : List (String × String)
  weight : Option RecordWeight
deriving Repr, DecidableEq

/-- Modelled from the spec: `RecordHierarchy` is a rooted tree over record
types; each non-root member edge names the member and its parent.
`defaults.rs` builds it with `RecordHierarchy::new("H")` and
`add_member("P", "H")` (whose `Result` is asserted `Ok`). -/
structure RecordHierarchy where
  root : String
  edges : List (String × String)
deriving Repr, DecidableEq

/-- `RecordHierarchy::new` as used by `defaults.rs`. -/
def RecordHierarchy.new (root : String) : RecordHierarchy :=
  ⟨root, []⟩

/-- `RecordHierarchy::add_member` as used by `defaults.rs` (the success case;
the default H/P hierarchy construction asserts success). -/
def RecordHierarchy.add_member (h : RecordHierarchy) (member parent : String) :
    RecordHierarchy :=
  { h with edges := h.edges ++ [(member, parent)] }

/-- `MicroDataCollection`, `conventions.rs` lines 41-48. The Rust
`record_types` field is a `HashMap<String, RecordType>`, embedded as an
association list keyed by the one-character code. -/
structure MicroDataCollection where
  name : String
  record_hierarchy : RecordHierarchy
  record_types : List (String × RecordType)
  default_unit_of_analysis : RecordType
  metadata : Option MetadataEntities
deriving Repr, DecidableEq

/-- `str::to_ascii_lowercase`. (`String::to_lowercase` in `defaults.rs` agrees
with it on the ASCII product names involved.) -/
def asciiLower (s : String) : String :=
  String.mk (s.data.map Char.toLower)

/-- `str::to_ascii_uppercase`. -/
def asciiUpper (s : String) : String :=
  String.mk (s.data.map Char.toUpper)

/-- `defaults::default_household_weight`, `defaults.rs` lines 35-37. -/
def default_household_weight : RecordWeight :=
  RecordWeight.new "HHWT" 100

/-- `defaults::default_person_weight`, `defaults.rs` lines 39-41. -/
def default_person_weight : RecordWeight :=
  RecordWeight.new "PERWT" 100

/-- `defaults::household`, `defaults.rs` lines 11-19. -/
def household : RecordType :=
  { name := "Household"
    value := "H"
    unique_id := "SERIAL"
    foreign_keys := []
    weight := some default_household_weight }

/-- `defaults::person`, `defaults.rs` lines 21-29. -/
def person : RecordType :=
  { name := "Person"
    value := "P"
    unique_id := "PSERIAL"
    foreign_keys := [("H", "SERIALP")]
    weight := some default_person_weight }

/-- `defaults::default_record_types`, `defaults.rs` lines 31-33. -/
def default_record_types : List (String × RecordType) :=
  [("H", household), ("P", person)]

/-- `defaults::default_hierarchy`, `defaults.rs` lines 43-48. -/
def default_hierarchy : RecordHierarchy :=
  (RecordHierarchy.new "H").add_member "P" "H"

/-- `defaults::default_settings_named`, `defaults.rs` lines 50-58. -/
def default_settings_named (name : String) : MicroDataCollection :=
  { name := name
    record_hierarchy := default_hierarchy
    record_types := default_record_types
    default_unit_of_analysis := person
    metadata := none }

/-- `defaults::defaults_for`, `defaults.rs` lines 73-80. The
`panic!("Product not supported")` arm is embedded as `none`. -/
def defaults_for (product : String) : Option MicroDataCollection :=
  match asciiLower product with
  | "usa" => some (default_settings_named "USA")
  | "cps" => some (default_settings_named "cps")
  | "ipumsi" => some (default_settings_named "ipumsi")
  | _ => none

/-! ## request.rs: InputType; conventions.rs: Context and paths -/

/-- `InputType`, `request.rs` lines 107-113. -/
inductive InputType where
  | Fw
  | Parquet
  | Csv
  | NativeDb
deriving Repr, DecidableEq

/-- `InputType::data_sub_directory`, `request.rs` lines 115-124. -/
def InputType.data_sub_directory : InputType → Option String
  | .Csv => some "csv"
  | .Parquet => some "parquet"
  | .Fw => none
  | .NativeDb => none

/-- `Context`, `conventions.rs` lines 329-341, with `PathBuf` roots embedded
as strings. -/
structure Context where
  name : String
  product_root : Option String := none
  data_root : Option String := none
  settings : MicroDataCollection
  allow_full_metadata : Bool := false
  enable_full_metadata : Bool := false
deriving Repr, DecidableEq

/-- `PathBuf::join` with a relative component. -/
def pathJoin (a b : String) : String :=
  a ++ "/" ++ b

/-- `MicroDataCollection::base_filename_for_dataset`, `conventions.rs`
lines 51-53. -/
def MicroDataCollection.base_filename_for_dataset (c : MicroDataCollection)
    (dataset_name : String) : String :=
  dataset_name ++ "_" ++ asciiLower c.name

/-- `MicroDataCollection::base_filename_for_dataset_and_rectype`,
`conventions.rs` lines 55-65. -/
def MicroDataCollection.base_filename_for_dataset_and_rectype (c : MicroDataCollection)
    (dataset_name record_type_abbrev : String) : String :=
  c.base_filename_for_dataset dataset_name ++ "." ++ asciiUpper record_type_abbrev

/-- The extension match at the head of `Context::paths_from_dataset_name`,
`conventions.rs` lines 350-354. It has arms only for `Csv`, `Parquet` and
`Fw`; `NativeDb` is embedded as `none`. -/
def InputType.fileExtension : InputType → Option String
  | .Csv => some "csv"
  | .Parquet => some "parquet"
  | .Fw => some "dat.gz"
  | .NativeDb => none

/-- `Context::paths_from_dataset_name`, `conventions.rs` lines 345-389.
The returned `HashMap<String, PathBuf>` is embedded as an association list in
record-type iteration order; the `panic!("No data root set.")` and the
missing-sub-directory panic are embedded as `none`. -/
def Context.paths_from_dataset_name (ctx : Context) (dataset_name : String)
    (data_format : InputType) : Option (List (String × String)) :=
  match data_format.fileExtension with
  | none => none
  | some extension =>
    match ctx.data_root with
    | none => none
    | some data_path =>
      match data_format with
      | .Csv | .Parquet =>
        match data_format.data_sub_directory with
        | none => none
        | some sub_dir =>
          some (ctx.settings.record_types.map (fun rt =>
            let parent_dir := pathJoin (pathJoin data_path sub_dir) dataset_name
            let base_filename :=
              ctx.settings.base_filename_for_dataset_and_rectype dataset_name rt.1
            let full_filename := base_filename ++ "." ++ extension
            (rt.1, pathJoin parent_dir full_filename)))
      | .Fw =>
        let base_filename := ctx.settings.base_filename_for_dataset dataset_name
        let full_filename := base_filename ++ "." ++ extension
        some [("", pathJoin data_path full_filename)]
      | .NativeDb => none

/-! ## tabulate.rs: table formats and output -/

/-- `TableFormat`, `tabulate.rs` lines 26-31. -/
inductive TableFormat where
  | Csv
  | Html
  | Json
  | TextTable
deriving Repr, DecidableEq

/-- The `Debug` rendering of a `TableFormat`, as interpolated by the
`todo!("Output format {:?} not implemented yet.", format)` message. -/
def TableFormat.debugName : TableFormat → String
  | .Csv => "Csv"
  | .Html => "Html"
  | .Json => "Json"
  | .TextTable => "TextTable"

/-- `Table`, `tabulate.rs` lines 149-153, restricted to the data the provided
sources define for a heading entry: the `Constructed` output column's
(name, declared width) pair. (The `RequestVar` variant's supporting methods
live in sources that are not provided.) -/
structure Table where
  heading : List (String × Nat)
  rows : List (List String)
deriving Repr, DecidableEq

/-- Right-align `s` in a field of width `w` (the Rust format spec
`{value:>width$}`). -/
def padLeftTo (s : String) (w : Nat) : String :=
  String.mk (List.replicate (w - s.length) ' ') ++ s

/-- `Table::column_widths`, `tabulate.rs` lines 186-210: per column, the
declared width unless the heading name is at least as wide. -/
def Table.column_widths (t : Table) : List Nat :=
  t.heading.map (fun h => if h.1.length < h.2 then h.2 else h.1.length)

/-- `Table::text_table_width`, `tabulate.rs` lines 182-184. -/
def Table.text_table_width (t : Table) : Nat :=
  1 + 3 * t.heading.length + t.column_widths.sum

/-- One formatted data row of the text table: each cell is rendered as
`"| "` + right-aligned value + `" "`. The Rust loop indexes
`widths[column]`; a row with more cells than columns panics, embedded as
`none`. -/
def formatRowCells : List String → List Nat → Option String
  | [], _ => some ""
  | item :: rest, w :: ws =>
    (formatRowCells rest ws).map (fun tail => "| " ++ padLeftTo item w ++ " " ++ tail)
  | _ :: _, [] => none

/-- `Table::format_as_text`, `tabulate.rs` lines 156-180. -/
def Table.format_as_text (t : Table) : Option String :=
  let widths := t.column_widths
  let header := String.join ((t.heading.zip widths).map
    (fun p => "| " ++ padLeftTo p.1.1 p.2 ++ " "))
  let rule := "|" ++ String.mk (List.replicate (t.text_table_width - 2) '-') ++ "|"
  let body := t.rows.foldr
    (fun r acc =>
      match formatRowCells r widths, acc with
      | some line, some tail => some (line ++ "|\n" ++ tail)
      | _, _ => none)
    (some "")
  body.map (fun b => header ++ "|\n" ++ rule ++ "\n" ++ b)

/-- `Tabulation`, `tabulate.rs` line 226: a list of tables. -/
structure Tabulation where
  tables : List Table
deriving Repr, DecidableEq

/-- The outcome of `Tabulation::output`: a returned `Ok` string, a returned
`Err`, or a Rust panic with its message. -/
inductive OutputOutcome where
  | ok (s : String)
  | err (e : MdError)
  | panicked (msg : String)
deriving Repr, DecidableEq

/-- Discriminator: is the outcome a returned `Err`? -/
def OutputOutcome.isErr : OutputOutcome → Bool
  | .err _ => true
  | _ => false

/-- Modelled from the spec: stand-in for `serde_json::to_string_pretty`, an
external collaborator the spec treats as a black box; only the success of the
`Json` arm matters to `output`. -/
def serdeJsonPretty (tables : List Table) : String :=
  toString (repr tables)

/-- The `TextTable` arm's loop over tables, `tabulate.rs` lines 242-249:
each table's text plus a newline, with a `format_as_text` failure aborting. -/
def textOutput : List Table → Option String
  | [] => some ""
  | tb :: rest =>
    match tb.format_as_text, textOutput rest with
    | some s, some tail => some (s ++ "\n" ++ tail)
    | _, _ => none

/-- `Tabulation::output`, `tabulate.rs` lines 229-253. The `Csv`/`Html` arm
executes `todo!("Output format {:?} not implemented yet.", format)`, which is
a Rust panic whose payload prefixes the message with "not yet implemented: ". -/
def Tabulation.output (t : Tabulation) (format : TableFormat) : OutputOutcome :=
  match format with
  | .Html | .Csv =>
    .panicked ("not yet implemented: Output format " ++ format.debugName
      ++ " not implemented yet.")
  | .Json => .ok (serdeJsonPretty t.tables)
  | .TextTable =>
    match textOutput t.tables with
    | some s => .ok s
    | none => .panicked "index out of bounds"

/-! ## Proof-support definitions -/

/-- The inductive invariant of the metadata store maintained by
`add_dataset_variable`: each adjacency side is exactly as long as the
corresponding index, every id in a name map is in bounds, and the two
adjacency sides agree on every (dataset, variable) pair. -/
structure StoreInv (s : MetadataEntities) : Prop where
  vfd_len : s.available_variables.ipums_variables_by_dataset_id.length =
    s.datasets_index.length
  dfv_len : s.available_datasets.ipums_datasets_by_variable_id.length =
    s.variables_index.length
  ds_id_lt : ∀ n i, hmGet s.datasets_by_name n = some i → i < s.datasets_index.length
  var_id_lt : ∀ n i, hmGet s.variables_by_name n = some i → i < s.variables_index.length
  agree : ∀ d v, adjMem s.available_variables.ipums_variables_by_dataset_id d v ↔
    adjMem s.available_datasets.ipums_datasets_by_variable_id v d

/-- A concrete variable used by witnesses. -/
def sampleAgeVar : IpumsVariable :=
  { name := "AGE", id := 0 }

/-- A concrete dataset used by witnesses. -/
def sampleDataset : IpumsDataset :=
  { name := "us2015b", id := 0 }

/-- A concrete non-empty store used by witnesses: the result of one successful
`add_dataset_variable` on the empty store. -/
def sampleStore : MetadataEntities :=
  (MetadataEntities.new.add_dataset_variable sampleDataset sampleAgeVar).getD
    MetadataEntities.new

/-- A concrete context used by witnesses, mirroring the `test_context` fixture
in `conventions.rs`: the "usa" collection with data root "test/data_root". -/
def sampleUsaContext : Context :=
  { name := "usa"
    data_root := some "test/data_root"
    settings := default_settings_named "USA" }

end Cimdea

namespace Cimdea

/-! ## Theorems for claims C4, C5, C10 -/

/-- **C4.** For every integer x and every CategoryBin built from a raw
`(low?, high?, label)` triple, `within x` is true iff x satisfies the original
bounds with closed-Range and strict open-end semantics: a Range with
low = high = k matches only k, LessThan(k) rejects k itself (matches exactly
x < k), and MoreThan(k) rejects k itself (matches exactly x > k). -/
theorem categoryBin_within_iff_raw_bounds (raw : CategoryBinRaw) (bin : CategoryBin)
    (h : CategoryBin.tryFromRaw raw = .ok bin) (x : Int) :
    bin.within x = true ↔ rawBoundsHold raw.low raw.high x := by
  rcases raw with ⟨code, label, low, high⟩
  rcases low with _ | l <;> rcases high with _ | hi <;>
    simp only [CategoryBin.tryFromRaw, rawBoundsHold] at h ⊢
  · exact absurd h (by simp)
  · cases h
    simp [CategoryBin.within]
  · cases h
    simp [CategoryBin.within]
  · by_cases hc : hi < l
    · simp [hc] at h
    · simp only [hc, if_false] at h
      cases h
      simp [CategoryBin.within]

/-- Witness for C4 at a concrete input: the raw bin (low = 3, high = 5) converts
to a Range bin, and containment of 4 agrees with the raw bounds. -/
theorem categoryBin_within_iff_raw_bounds_witness :
    (CategoryBin.tryFromRaw ⟨0, "between 3 and 5", some 3, some 5⟩ =
      .ok (.Range 3 5 "between 3 and 5")) ∧
    ((CategoryBin.Range 3 5 "between 3 and 5").within 4 = true ↔
      rawBoundsHold (some 3) (some 5) 4) :=
  ⟨rfl,
   categoryBin_within_iff_raw_bounds ⟨0, "between 3 and 5", some 3, some 5⟩
     (.Range 3 5 "between 3 and 5") rfl 4⟩

/-- **C5.** Conversion of a raw `(low?, high?, label)` triple to a CategoryBin
succeeds with a Range exactly when both bounds are present and low ≤ high,
yields LessThan(high) when only high is present, yields MoreThan(low) when only
low is present, and returns a construction error when both bounds are absent or
when both are present with high < low. -/
theorem categoryBin_tryFromRaw_cases (code : Nat) (label : String) :
    (∀ l h : Int, l ≤ h →
      CategoryBin.tryFromRaw ⟨code, label, some l, some h⟩ = .ok (.Range l h label)) ∧
    (∀ l h : Int, h < l →
      CategoryBin.tryFromRaw ⟨code, label, some l, some h⟩ =
        .error (.Msg (crossedBoundsMsg l h))) ∧
    (∀ h : Int, CategoryBin.tryFromRaw ⟨code, label, none, some h⟩ =
      .ok (.LessThan h label)) ∧
    (∀ l : Int, CategoryBin.tryFromRaw ⟨code, label, some l, none⟩ =
      .ok (.MoreThan l label)) ∧
    CategoryBin.tryFromRaw ⟨code, label, none, none⟩ = .error (.Msg noBoundsMsg) := by
  refine ⟨fun l h hle => ?_, fun l h hlt => ?_, fun h => rfl, fun l => rfl, rfl⟩
  · simp [CategoryBin.tryFromRaw, not_lt.mpr hle]
  · simp [CategoryBin.tryFromRaw, hlt]

/-- Witness for C5 at concrete inputs: each of the five cases evaluated at
small integers. -/
theorem categoryBin_tryFromRaw_cases_witness :
    (CategoryBin.tryFromRaw ⟨0, "b", some 3, some 5⟩ = .ok (.Range 3 5 "b")) ∧
    (CategoryBin.tryFromRaw ⟨0, "b", some 10, some 2⟩ =
      .error (.Msg (crossedBoundsMsg 10 2))) ∧
    (CategoryBin.tryFromRaw ⟨0, "b", none, some 7⟩ = .ok (.LessThan 7 "b")) ∧
    (CategoryBin.tryFromRaw ⟨0, "b", some 7, none⟩ = .ok (.MoreThan 7 "b")) ∧
    (CategoryBin.tryFromRaw ⟨0, "b", none, none⟩ = .error (.Msg noBoundsMsg)) := by
  have h := categoryBin_tryFromRaw_cases 0 "b"
  exact ⟨h.1 3 5 (by decide), h.2.1 10 2 (by decide), h.2.2.1 7, h.2.2.2.1 7, h.2.2.2.2⟩

/-- **C10.** For every pair of optional bounds and every label,
`CategoryBin::new(low, high, label)` and `CategoryBin::try_from` applied to a
raw bin with the same low, high, and value_label produce the same outcome:
both succeed with the same variant and field values, or both fail. -/
theorem categoryBin_new_eq_tryFromRaw (low high : Option Int) (label : String) (code : Nat) :
    CategoryBin.new low high label = CategoryBin.tryFromRaw ⟨code, label, low, high⟩ := by
  rcases low with _ | l <;> rcases high with _ | h <;> rfl

end Cimdea

namespace Cimdea

/-! ## Helper lemmas on the embedded containers -/

theorem list_get?_set_self {α : Type} :
    ∀ (l : List α) (i : Nat) (a : α), i < l.length → (l.set i a).get? i = some a
  | [], _, _, h => absurd h (by simp)
  | _ :: _, 0, _, _ => rfl
  | x :: xs, i + 1, a, h => by
    simpa [List.set, List.get?] using
      list_get?_set_self xs i a (Nat.lt_of_succ_lt_succ (by simpa using h))

theorem list_get?_set_ne {α : Type} :
    ∀ (l : List α) (i j : Nat) (a : α), i ≠ j → (l.set i a).get? j = l.get? j
  | [], _, _, _, _ => rfl
  | _ :: _, 0, 0, _, h => absurd rfl h
  | _ :: _, 0, _ + 1, _, _ => rfl
  | _ :: _, _ + 1, 0, _, _ => rfl
  | x :: xs, i + 1, j + 1, a, h => by
    simpa [List.set, List.get?] using
      list_get?_set_ne xs i j a (fun hc => h (by rw [hc]))

theorem list_set_get?_self {α : Type} :
    ∀ (l : List α) (i : Nat) (a : α), l.get? i = some a → l.set i a = l
  | [], _, _, h => by cases h
  | x :: xs, 0, a, h => by
    cases h
    rfl
  | x :: xs, i + 1, a, h => by
    have := list_set_get?_self xs i a (by simpa [List.get?] using h)
    simp [List.set, this]

theorem list_get?_none_iff {α : Type} :
    ∀ (l : List α) (i : Nat), l.get? i = none ↔ l.length ≤ i
  | [], i => by simp [List.get?]
  | x :: xs, 0 => by simp [List.get?]
  | x :: xs, i + 1 => by
    rw [show (x :: xs).get? (i + 1) = xs.get? i from rfl, list_get?_none_iff xs i]
    simp

theorem list_get?_append_left {α : Type} :
    ∀ (l l' : List α) (i : Nat), i < l.length → (l ++ l').get? i = l.get? i
  | [], _, _, h => absurd h (by simp)
  | x :: xs, l', 0, _ => rfl
  | x :: xs, l', i + 1, h => by
    exact list_get?_append_left xs l' i (Nat.lt_of_succ_lt_succ (by simpa using h))

theorem list_get?_concat_self {α : Type} :
    ∀ (l : List α) (a : α), (l ++ [a]).get? l.length = some a
  | [], a => rfl
  | x :: xs, a => by
    show (xs ++ [a]).get? xs.length = some a
    exact list_get?_concat_self xs a

theorem hmGet_hmInsert_self (m : List (String × Nat)) (k : String) (v : Nat) :
    hmGet (hmInsert m k v) k = some v := by
  induction m with
  | nil => simp [hmInsert, hmGet]
  | cons p rest ih =>
    rcases p with ⟨k0, v0⟩
    by_cases h : k0 = k
    · simp [hmInsert, hmGet, h]
    · simp [hmInsert, hmGet, h, ih]

theorem hmGet_hmInsert_ne (m : List (String × Nat)) (k : String) (v : Nat)
    (k' : String) (h : k ≠ k') :
    hmGet (hmInsert m k v) k' = hmGet m k' := by
  induction m with
  | nil => simp [hmInsert, hmGet, h]
  | cons p rest ih =>
    rcases p with ⟨k0, v0⟩
    by_cases hk : k0 = k
    · subst hk
      simp only [hmInsert, if_pos rfl]
      simp [hmGet, h]
    · simp only [hmInsert, if_neg hk]
      by_cases hk' : k0 = k'
      · simp [hmGet, hk']
      · simp [hmGet, hk', ih]

theorem mem_hsInsert (s : List Nat) (x y : Nat) :
    y ∈ hsInsert s x ↔ y ∈ s ∨ y = x := by
  unfold hsInsert
  by_cases h : x ∈ s
  · simp only [h, if_true]
    exact ⟨Or.inl, fun hy => hy.elim id (fun he => he ▸ h)⟩
  · simp [h, List.mem_append]

theorem hsInsert_self_mem (s : List Nat) (x : Nat) : x ∈ hsInsert s x :=
  (mem_hsInsert s x x).2 (Or.inr rfl)

theorem hsInsert_eq_of_mem (s : List Nat) (x : Nat) (h : x ∈ s) : hsInsert s x = s := by
  simp [hsInsert, h]

/-! ## Lemmas on `adjUpdate` -/
theorem adjUpdate_eq_of_lt {outer : List (List Nat)} {idx : Nat} (elem : Nat)
    (hlt : idx < outer.length) :
    ∃ inner, outer.get? idx = some inner ∧
      adjUpdate outer idx elem = some (outer.set idx (hsInsert inner elem)) := by
  rcases hg : outer.get? idx with _ | inner
  · exact absurd ((list_get?_none_iff outer idx).1 hg) (not_le.mpr hlt)
  · refine ⟨inner, rfl, ?_⟩
    unfold adjUpdate
    simp only [hg]

theorem adjUpdate_eq_of_len (outer : List (List Nat)) (elem : Nat) :
    adjUpdate outer outer.length elem =
      some ((outer ++ [[]]).set outer.length (hsInsert [] elem)) := by
  have h0 : outer.get? outer.length = none := (list_get?_none_iff outer _).2 le_rfl
  have h1 : (outer ++ [[]]).get? outer.length = some [] := list_get?_concat_self outer []
  unfold adjUpdate
  simp only [h0, h1]

theorem adjUpdate_eq_none_of_gt {outer : List (List Nat)} {idx : Nat} (elem : Nat)
    (hgt : outer.length < idx) :
    adjUpdate outer idx elem = none := by
  have h0 : outer.get? idx = none := (list_get?_none_iff outer idx).2 (le_of_lt hgt)
  have h1 : (outer ++ [[]]).get? idx = none := by
    refine (list_get?_none_iff _ idx).2 ?_
    simpa using hgt
  unfold adjUpdate
  simp only [h0, h1]

theorem adjUpdate_length {outer out' : List (List Nat)} {idx elem : Nat}
    (h : adjUpdate outer idx elem = some out') :
    out'.length = max outer.length (idx + 1) := by
  rcases lt_trichotomy idx outer.length with hlt | heq | hgt
  · obtain ⟨inner, _, he⟩ := adjUpdate_eq_of_lt elem hlt
    rw [he] at h
    cases h
    rw [List.length_set]
    omega
  · subst heq
    rw [adjUpdate_eq_of_len outer elem] at h
    cases h
    rw [List.length_set, List.length_append]
    simp only [List.length_cons, List.length_nil]
    omega
  · rw [adjUpdate_eq_none_of_gt elem hgt] at h
    cases h

theorem adjMem_concat_nil (outer : List (List Nat)) (j e : Nat) :
    adjMem (outer ++ [[]]) j e ↔ adjMem outer j e := by
  unfold adjMem
  rcases lt_trichotomy j outer.length with hlt | heq | hgt
  · rw [list_get?_append_left outer [[]] j hlt]
  · subst heq
    rw [list_get?_concat_self outer [], (list_get?_none_iff outer _).2 le_rfl]
    simp
  · rw [(list_get?_none_iff (outer ++ [[]]) j).2 (by simpa using hgt),
      (list_get?_none_iff outer j).2 (le_of_lt hgt)]

theorem adjUpdate_mem_iff {outer out' : List (List Nat)} {idx elem : Nat}
    (h : adjUpdate outer idx elem = some out') (j e : Nat) :
    adjMem out' j e ↔ (adjMem outer j e ∨ (j = idx ∧ e = elem)) := by
  rcases lt_trichotomy idx outer.length with hlt | heq | hgt
  · obtain ⟨inner, hg, he⟩ := adjUpdate_eq_of_lt elem hlt
    rw [he] at h
    cases h
    by_cases hj : j = idx
    · subst hj
      unfold adjMem
      rw [list_get?_set_self outer j (hsInsert inner elem) hlt, hg]
      simp [mem_hsInsert]
    · unfold adjMem
      rw [list_get?_set_ne outer idx j _ (fun hc => hj hc.symm)]
      simp [hj]
  · subst heq
    rw [adjUpdate_eq_of_len outer elem] at h
    cases h
    by_cases hj : j = outer.length
    · subst hj
      unfold adjMem
      rw [list_get?_set_self (outer ++ [[]]) outer.length (hsInsert [] elem) (by simp)]
      rw [(list_get?_none_iff outer outer.length).2 le_rfl]
      simp [mem_hsInsert]
    · have hstep : adjMem ((outer ++ [[]]).set outer.length (hsInsert [] elem)) j e ↔
          adjMem (outer ++ [[]]) j e := by
        unfold adjMem
        rw [list_get?_set_ne (outer ++ [[]]) outer.length j _ (fun hc => hj hc.symm)]
      rw [hstep, adjMem_concat_nil]
      simp [hj]
  · rw [adjUpdate_eq_none_of_gt elem hgt] at h
    cases h

theorem adjUpdate_result_get? {outer out' : List (List Nat)} {idx elem : Nat}
    (h : adjUpdate outer idx elem = some out') :
    ∃ inner, out'.get? idx = some inner ∧ elem ∈ inner := by
  rcases lt_trichotomy idx outer.length with hlt | heq | hgt
  · obtain ⟨inner, hg, he⟩ := adjUpdate_eq_of_lt elem hlt
    rw [he] at h
    cases h
    exact ⟨hsInsert inner elem,
      list_get?_set_self outer idx _ hlt, hsInsert_self_mem inner elem⟩
  · subst heq
    rw [adjUpdate_eq_of_len outer elem] at h
    cases h
    exact ⟨hsInsert [] elem,
      list_get?_set_self (outer ++ [[]]) _ _ (by simp), hsInsert_self_mem [] elem⟩
  · rw [adjUpdate_eq_none_of_gt elem hgt] at h
    cases h

theorem adjUpdate_idem {outer out' : List (List Nat)} {idx elem : Nat}
    (h : adjUpdate outer idx elem = some out') :
    adjUpdate out' idx elem = some out' := by
  obtain ⟨inner, hg, hm⟩ := adjUpdate_result_get? h
  have hins : hsInsert inner elem = inner := hsInsert_eq_of_mem inner elem hm
  have hset : out'.set idx inner = out' := list_set_get?_self out' idx inner hg
  unfold adjUpdate
  simp only [hg, hins, hset]

theorem adjUpdate_isSome_of_le {outer : List (List Nat)} {idx : Nat} (elem : Nat)
    (hle : idx ≤ outer.length) :
    ∃ out', adjUpdate outer idx elem = some out' := by
  rcases lt_or_eq_of_le hle with hlt | heq
  · obtain ⟨inner, _, he⟩ := adjUpdate_eq_of_lt elem hlt
    exact ⟨_, he⟩
  · subst heq
    exact ⟨_, adjUpdate_eq_of_len outer elem⟩

end Cimdea

namespace Cimdea

/-! ## Lemmas on `connect`, `create`, and the upsert phases -/

theorem connect_some_elim {t s' : MetadataEntities} {did vid : Nat}
    (h : t.connect did vid = some s') :
    ∃ vout dout,
      adjUpdate t.available_variables.ipums_variables_by_dataset_id did vid = some vout ∧
      adjUpdate t.available_datasets.ipums_datasets_by_variable_id vid did = some dout ∧
      s' = { t with available_variables := ⟨vout⟩, available_datasets := ⟨dout⟩ } := by
  unfold MetadataEntities.connect VariablesForDataset.add_or_update
    DatasetsForVariable.add_or_update at h
  rcases hv : adjUpdate t.available_variables.ipums_variables_by_dataset_id did vid
    with _ | vout
  · rw [hv] at h
    exact Option.noConfusion h
  · rw [hv] at h
    simp only [Option.map_some'] at h
    rcases hd : adjUpdate t.available_datasets.ipums_datasets_by_variable_id vid did
      with _ | dout
    · rw [hd] at h
      exact Option.noConfusion h
    · rw [hd] at h
      simp only [Option.map_some'] at h
      cases h
      exact ⟨vout, dout, rfl, rfl, rfl⟩

theorem connect_some_intro {t : MetadataEntities} {did vid : Nat}
    {vout dout : List (List Nat)}
    (hv : adjUpdate t.available_variables.ipums_variables_by_dataset_id did vid = some vout)
    (hd : adjUpdate t.available_datasets.ipums_datasets_by_variable_id vid did = some dout) :
    t.connect did vid =
      some { t with available_variables := ⟨vout⟩, available_datasets := ⟨dout⟩ } := by
  unfold MetadataEntities.connect VariablesForDataset.add_or_update
    DatasetsForVariable.add_or_update
  rw [hv, hd]
  rfl

theorem create_dataset_eq (s : MetadataEntities) (d : IpumsDataset) :
    s.create_dataset d =
      ({ s with
          datasets_by_name := hmInsert s.datasets_by_name d.name s.datasets_index.length
          datasets_index := s.datasets_index ++ [{ d with id := s.datasets_index.length }] },
        s.datasets_index.length) := rfl

theorem create_variable_eq (s : MetadataEntities) (v : IpumsVariable) :
    s.create_variable v =
      ({ s with
          variables_by_name := hmInsert s.variables_by_name v.name s.variables_index.length
          variables_index := s.variables_index ++ [{ v with id := s.variables_index.length }] },
        s.variables_index.length) := rfl

theorem upsert_dataset_cases (s : MetadataEntities) (d : IpumsDataset) :
    (∃ i, hmGet s.datasets_by_name d.name = some i ∧ s.upsert_dataset d = (s, i)) ∨
    (hmGet s.datasets_by_name d.name = none ∧ s.upsert_dataset d = s.create_dataset d) := by
  unfold MetadataEntities.upsert_dataset
  rcases h : hmGet s.datasets_by_name d.name with _ | i
  · exact Or.inr ⟨rfl, rfl⟩
  · exact Or.inl ⟨i, rfl, rfl⟩

theorem upsert_variable_cases (s : MetadataEntities) (v : IpumsVariable) :
    (∃ i, hmGet s.variables_by_name v.name = some i ∧ s.upsert_variable v = (s, i)) ∨
    (hmGet s.variables_by_name v.name = none ∧ s.upsert_variable v = s.create_variable v) := by
  unfold MetadataEntities.upsert_variable
  rcases h : hmGet s.variables_by_name v.name with _ | i
  · exact Or.inr ⟨rfl, rfl⟩
  · exact Or.inl ⟨i, rfl, rfl⟩

theorem add_dataset_variable_def (s : MetadataEntities) (d : IpumsDataset)
    (v : IpumsVariable) :
    s.add_dataset_variable d v =
      ((s.upsert_dataset d).1.upsert_variable v).1.connect
        (s.upsert_dataset d).2 ((s.upsert_dataset d).1.upsert_variable v).2 := rfl

end Cimdea

namespace Cimdea

/-! ## Upsert phase lemmas -/

theorem upsert_dataset_of_get {s : MetadataEntities} {d : IpumsDataset} {i : Nat}
    (h : hmGet s.datasets_by_name d.name = some i) : s.upsert_dataset d = (s, i) := by
  unfold MetadataEntities.upsert_dataset
  rw [h]

theorem upsert_variable_of_get {s : MetadataEntities} {v : IpumsVariable} {i : Nat}
    (h : hmGet s.variables_by_name v.name = some i) : s.upsert_variable v = (s, i) := by
  unfold MetadataEntities.upsert_variable
  rw [h]

theorem upsert_dataset_get (s : MetadataEntities) (d : IpumsDataset) :
    hmGet (s.upsert_dataset d).1.datasets_by_name d.name = some (s.upsert_dataset d).2 := by
  rcases upsert_dataset_cases s d with ⟨i, hg, he⟩ | ⟨hg, he⟩
  · rw [he]
    exact hg
  · rw [he, create_dataset_eq]
    exact hmGet_hmInsert_self s.datasets_by_name d.name s.datasets_index.length

theorem upsert_variable_get (s : MetadataEntities) (v : IpumsVariable) :
    hmGet (s.upsert_variable v).1.variables_by_name v.name = some (s.upsert_variable v).2 := by
  rcases upsert_variable_cases s v with ⟨i, hg, he⟩ | ⟨hg, he⟩
  · rw [he]
    exact hg
  · rw [he, create_variable_eq]
    exact hmGet_hmInsert_self s.variables_by_name v.name s.variables_index.length

theorem upsert_dataset_preserves (s : MetadataEntities) (d : IpumsDataset) :
    (s.upsert_dataset d).1.variables_by_name = s.variables_by_name ∧
    (s.upsert_dataset d).1.variables_index = s.variables_index ∧
    (s.upsert_dataset d).1.available_variables = s.available_variables ∧
    (s.upsert_dataset d).1.available_datasets = s.available_datasets := by
  rcases upsert_dataset_cases s d with ⟨i, _, he⟩ | ⟨_, he⟩ <;> rw [he] <;>
    exact ⟨rfl, rfl, rfl, rfl⟩

theorem upsert_variable_preserves (s : MetadataEntities) (v : IpumsVariable) :
    (s.upsert_variable v).1.datasets_by_name = s.datasets_by_name ∧
    (s.upsert_variable v).1.datasets_index = s.datasets_index ∧
    (s.upsert_variable v).1.available_variables = s.available_variables ∧
    (s.upsert_variable v).1.available_datasets = s.available_datasets := by
  rcases upsert_variable_cases s v with ⟨i, _, he⟩ | ⟨_, he⟩ <;> rw [he] <;>
    exact ⟨rfl, rfl, rfl, rfl⟩

end Cimdea

namespace Cimdea

/-! ## Claim theorems: C2, C6, C8, C9 -/

/-- **C2.** The claim states `add_or_update` extends the outer sequence with
empty sets up to the needed index and records the pair without panicking. The
code instead pushes a single empty set and then indexes, which is an
out-of-bounds panic (embedded as `none`) whenever the needed index exceeds the
current length: here inserting (dataset 5, variable 3) when only dataset ids
0..2 exist, and symmetrically (dataset 3, variable 5) on the variable side. -/
theorem add_or_update_sparse_id_panics :
    (VariablesForDataset.mk [[0], [0], [0]]).add_or_update 5 3 = none ∧
    (DatasetsForVariable.mk [[0], [0], [0]]).add_or_update 3 5 = none := by
  constructor <;> rfl

/-- **C6.** For every MetadataEntities store and every dataset d and variable
v, calling `add_dataset_variable(d, v)` twice in a row yields exactly the same
store state as calling it once: the same ids assigned, the same name maps, the
same index vectors, and the same adjacency sets (and a first call that panics
aborts identically). -/
theorem add_dataset_variable_idempotent (s : MetadataEntities) (d : IpumsDataset)
    (v : IpumsVariable) :
    (s.add_dataset_variable d v).bind (fun s1 => s1.add_dataset_variable d v) =
      s.add_dataset_variable d v := by
  rcases h : s.add_dataset_variable d v with _ | s1
  · rfl
  · simp only [Option.some_bind]
    rw [add_dataset_variable_def] at h
    obtain ⟨vout, dout, hv, hd, hs1⟩ := connect_some_elim h
    have hds : hmGet s1.datasets_by_name d.name = some (s.upsert_dataset d).2 := by
      rw [hs1]
      show hmGet ((s.upsert_dataset d).1.upsert_variable v).1.datasets_by_name d.name = _
      rw [(upsert_variable_preserves (s.upsert_dataset d).1 v).1]
      exact upsert_dataset_get s d
    have hvs : hmGet s1.variables_by_name v.name =
        some ((s.upsert_dataset d).1.upsert_variable v).2 := by
      rw [hs1]
      exact upsert_variable_get (s.upsert_dataset d).1 v
    have hv1 : adjUpdate s1.available_variables.ipums_variables_by_dataset_id
        (s.upsert_dataset d).2 ((s.upsert_dataset d).1.upsert_variable v).2 =
        some s1.available_variables.ipums_variables_by_dataset_id := by
      rw [hs1]
      exact adjUpdate_idem hv
    have hd1 : adjUpdate s1.available_datasets.ipums_datasets_by_variable_id
        ((s.upsert_dataset d).1.upsert_variable v).2 (s.upsert_dataset d).2 =
        some s1.available_datasets.ipums_datasets_by_variable_id := by
      rw [hs1]
      exact adjUpdate_idem hd
    rw [add_dataset_variable_def, upsert_dataset_of_get hds]
    dsimp only
    rw [upsert_variable_of_get hvs]
    dsimp only
    rw [connect_some_intro hv1 hd1]

/-- **C8.** The claim states that `output` with the Csv or Html format returns
an error result. The code instead executes `todo!`, a panic: here at the
concrete empty tabulation and the Csv format, the outcome is a panic and not a
returned `Err`. -/
theorem output_csv_is_panic_not_error :
    ((Tabulation.mk []).output TableFormat.Csv).isErr = false ∧
    (Tabulation.mk []).output TableFormat.Csv =
      .panicked "not yet implemented: Output format Csv not implemented yet." := by
  constructor <;> rfl

/-- **C8 (amended).** For every Tabulation value, calling `output` with the Csv
or Html table format panics with the `todo!` message naming the format as not
implemented; it does not return (neither an error result nor empty output). -/
theorem output_csv_html_unimplemented_panic (t : Tabulation) :
    t.output TableFormat.Csv =
      .panicked "not yet implemented: Output format Csv not implemented yet." ∧
    t.output TableFormat.Html =
      .panicked "not yet implemented: Output format Html not implemented yet." := by
  constructor <;> rfl

/-- **C9.** The claim states `defaults_for` canonicalizes the product name to
uppercase for all three supported products. The code does so only for "usa":
"cps" and "ipumsi" (in any letter casing) get lowercase names, while unknown
products fail (panic, embedded as `none`). -/
theorem defaults_for_name_casing :
    (defaults_for "usa").map MicroDataCollection.name = some "USA" ∧
    (defaults_for "UsA").map MicroDataCollection.name = some "USA" ∧
    (defaults_for "cps").map MicroDataCollection.name = some "cps" ∧
    (defaults_for "CPS").map MicroDataCollection.name = some "cps" ∧
    (defaults_for "ipumsi").map MicroDataCollection.name = some "ipumsi" ∧
    (defaults_for "IPUMSI").map MicroDataCollection.name = some "ipumsi" ∧
    defaults_for "atus" = none := by
  refine ⟨rfl, ?_, rfl, ?_, rfl, ?_, rfl⟩ <;> rfl

end Cimdea

namespace Cimdea

/-! ## Claim C3 -/

/-- **C3 (counterexample).** The claim states `create_variable` with an already
registered name returns the existing id and leaves the store unchanged. On the
store holding exactly the variable "AGE" with id 0, `create_variable` with
another "AGE" variable returns the fresh id 1 (not the existing id 0) and
appends to `variables_index` (length 2, not 1). -/
theorem create_variable_existing_name_cex :
    (hmGet (MetadataEntities.new.create_variable sampleAgeVar).1.variables_by_name "AGE" =
      some 0) ∧
    ((MetadataEntities.new.create_variable sampleAgeVar).1.create_variable
      sampleAgeVar).2 = 1 ∧
    ((MetadataEntities.new.create_variable sampleAgeVar).1.create_variable
      sampleAgeVar).1.variables_index.length = 2 :=
  ⟨rfl, rfl, rfl⟩

/-- **C3 (amended).** `create_variable` and `create_dataset` themselves always
append a fresh entry whose id is the next dense index, even when the name is
already registered (the name-map entry is overwritten). The existing-name
guard lives in `add_dataset_variable` instead: when the variable (resp.
dataset) name is already registered there, a successful call reuses the
existing id and leaves `variables_index` and `variables_by_name` (resp.
`datasets_index` and `datasets_by_name`) unchanged. -/
theorem create_fresh_and_add_guards (s : MetadataEntities) (d : IpumsDataset)
    (v : IpumsVariable) (i : Nat) (s' : MetadataEntities) :
    ((s.create_variable v).2 = s.variables_index.length ∧
     (s.create_variable v).1.variables_index.length = s.variables_index.length + 1 ∧
     (s.create_dataset d).2 = s.datasets_index.length ∧
     (s.create_dataset d).1.datasets_index.length = s.datasets_index.length + 1) ∧
    (hmGet s.variables_by_name v.name = some i →
      s.add_dataset_variable d v = some s' →
      s'.variables_index = s.variables_index ∧
      s'.variables_by_name = s.variables_by_name) ∧
    (hmGet s.datasets_by_name d.name = some i →
      s.add_dataset_variable d v = some s' →
      s'.datasets_index = s.datasets_index ∧
      s'.datasets_by_name = s.datasets_by_name) := by
  refine ⟨⟨rfl, by simp [create_variable_eq], rfl, by simp [create_dataset_eq]⟩, ?_, ?_⟩
  · intro hget hadd
    rw [add_dataset_variable_def] at hadd
    obtain ⟨vout, dout, hv, hd, hs1⟩ := connect_some_elim hadd
    subst hs1
    have hget1 : hmGet (s.upsert_dataset d).1.variables_by_name v.name = some i := by
      rw [(upsert_dataset_preserves s d).1]
      exact hget
    constructor
    · show ((s.upsert_dataset d).1.upsert_variable v).1.variables_index = s.variables_index
      rw [upsert_variable_of_get hget1]
      exact (upsert_dataset_preserves s d).2.1
    · show ((s.upsert_dataset d).1.upsert_variable v).1.variables_by_name =
        s.variables_by_name
      rw [upsert_variable_of_get hget1]
      exact (upsert_dataset_preserves s d).1
  · intro hget hadd
    rw [add_dataset_variable_def] at hadd
    obtain ⟨vout, dout, hv, hd, hs1⟩ := connect_some_elim hadd
    subst hs1
    have hud : s.upsert_dataset d = (s, i) := upsert_dataset_of_get hget
    constructor
    · show ((s.upsert_dataset d).1.upsert_variable v).1.datasets_index = s.datasets_index
      rw [(upsert_variable_preserves (s.upsert_dataset d).1 v).2.1, hud]
    · show ((s.upsert_dataset d).1.upsert_variable v).1.datasets_by_name =
        s.datasets_by_name
      rw [(upsert_variable_preserves (s.upsert_dataset d).1 v).1, hud]

/-- Witness for the amended C3 at a concrete input: on `sampleStore` (which
registers dataset "us2015b" with id 0 and variable "AGE" with id 0) the
name-lookup hypotheses and the successful-call hypotheses hold by evaluation,
and the guarded no-mutation conclusions follow. -/
theorem create_fresh_and_add_guards_witness :
    ((sampleStore.create_variable sampleAgeVar).2 = sampleStore.variables_index.length ∧
     (sampleStore.create_variable sampleAgeVar).1.variables_index.length =
       sampleStore.variables_index.length + 1 ∧
     (sampleStore.create_dataset sampleDataset).2 = sampleStore.datasets_index.length ∧
     (sampleStore.create_dataset sampleDataset).1.datasets_index.length =
       sampleStore.datasets_index.length + 1) ∧
    (sampleStore.variables_index = sampleStore.variables_index ∧
     sampleStore.variables_by_name = sampleStore.variables_by_name) ∧
    (sampleStore.datasets_index = sampleStore.datasets_index ∧
     sampleStore.datasets_by_name = sampleStore.datasets_by_name) := by
  have h := create_fresh_and_add_guards sampleStore sampleDataset sampleAgeVar 0 sampleStore
  exact ⟨h.1, h.2.1 rfl rfl, h.2.2 rfl rfl⟩

end Cimdea

namespace Cimdea

/-! ## Claim C1: the bipartite adjacency invariant -/

theorem hmGet_hmInsert_elim {m : List (String × Nat)} {k : String} {v : Nat}
    {k' : String} {i : Nat} (h : hmGet (hmInsert m k v) k' = some i) :
    (k = k' ∧ i = v) ∨ (k ≠ k' ∧ hmGet m k' = some i) := by
  by_cases hk : k = k'
  · subst hk
    rw [hmGet_hmInsert_self] at h
    cases h
    exact Or.inl ⟨rfl, rfl⟩
  · rw [hmGet_hmInsert_ne m k v k' hk] at h
    exact Or.inr ⟨hk, h⟩

theorem upsert_dataset_facts (s : MetadataEntities) (d : IpumsDataset)
    (hbound : ∀ n i, hmGet s.datasets_by_name n = some i → i < s.datasets_index.length) :
    (s.upsert_dataset d).2 ≤ s.datasets_index.length ∧
    (s.upsert_dataset d).1.datasets_index.length =
      max s.datasets_index.length ((s.upsert_dataset d).2 + 1) ∧
    (∀ n i, hmGet (s.upsert_dataset d).1.datasets_by_name n = some i →
      i < (s.upsert_dataset d).1.datasets_index.length) := by
  rcases upsert_dataset_cases s d with ⟨i, hg, he⟩ | ⟨hg, he⟩
  · rw [he]
    have hi := hbound d.name i hg
    refine ⟨?_, ?_, ?_⟩
    · show i ≤ s.datasets_index.length
      exact le_of_lt hi
    · show s.datasets_index.length = max s.datasets_index.length (i + 1)
      omega
    · exact hbound
  · rw [he, create_dataset_eq]
    refine ⟨?_, ?_, ?_⟩
    · show s.datasets_index.length ≤ s.datasets_index.length
      exact le_rfl
    · show (s.datasets_index ++ [{ d with id := s.datasets_index.length }]).length =
        max s.datasets_index.length (s.datasets_index.length + 1)
      rw [List.length_append]
      simp only [List.length_cons, List.length_nil]
      omega
    · intro n j hj
      show j < (s.datasets_index ++ [{ d with id := s.datasets_index.length }]).length
      rw [List.length_append]
      simp only [List.length_cons, List.length_nil]
      rcases hmGet_hmInsert_elim hj with ⟨-, rfl⟩ | ⟨-, hj'⟩
      · omega
      · have := hbound n j hj'
        omega

theorem upsert_variable_facts (s : MetadataEntities) (v : IpumsVariable)
    (hbound : ∀ n i, hmGet s.variables_by_name n = some i → i < s.variables_index.length) :
    (s.upsert_variable v).2 ≤ s.variables_index.length ∧
    (s.upsert_variable v).1.variables_index.length =
      max s.variables_index.length ((s.upsert_variable v).2 + 1) ∧
    (∀ n i, hmGet (s.upsert_variable v).1.variables_by_name n = some i →
      i < (s.upsert_variable v).1.variables_index.length) := by
  rcases upsert_variable_cases s v with ⟨i, hg, he⟩ | ⟨hg, he⟩
  · rw [he]
    have hi := hbound v.name i hg
    refine ⟨?_, ?_, ?_⟩
    · show i ≤ s.variables_index.length
      exact le_of_lt hi
    · show s.variables_index.length = max s.variables_index.length (i + 1)
      omega
    · exact hbound
  · rw [he, create_variable_eq]
    refine ⟨?_, ?_, ?_⟩
    · show s.variables_index.length ≤ s.variables_index.length
      exact le_rfl
    · show (s.variables_index ++ [{ v with id := s.variables_index.length }]).length =
        max s.variables_index.length (s.variables_index.length + 1)
      rw [List.length_append]
      simp only [List.length_cons, List.length_nil]
      omega
    · intro n j hj
      show j < (s.variables_index ++ [{ v with id := s.variables_index.length }]).length
      rw [List.length_append]
      simp only [List.length_cons, List.length_nil]
      rcases hmGet_hmInsert_elim hj with ⟨-, rfl⟩ | ⟨-, hj'⟩
      · omega
      · have := hbound n j hj'
        omega

theorem storeInv_new : StoreInv MetadataEntities.new := by
  refine ⟨rfl, rfl, ?_, ?_, ?_⟩
  · intro n i h
    exact Option.noConfusion h
  · intro n i h
    exact Option.noConfusion h
  · intro d v
    constructor <;> rintro ⟨inner, hi, -⟩ <;> exact Option.noConfusion hi

theorem storeInv_step {s s' : MetadataEntities} {d : IpumsDataset} {v : IpumsVariable}
    (hs : StoreInv s) (h : s.add_dataset_variable d v = some s') : StoreInv s' := by
  rw [add_dataset_variable_def] at h
  obtain ⟨vout, dout, hv, hd, hs1⟩ := connect_some_elim h
  subst hs1
  obtain ⟨hdle, hdlen, hdbound⟩ := upsert_dataset_facts s d hs.ds_id_lt
  have hvarmap : (s.upsert_dataset d).1.variables_by_name = s.variables_by_name :=
    (upsert_dataset_preserves s d).1
  have hvaridx : (s.upsert_dataset d).1.variables_index = s.variables_index :=
    (upsert_dataset_preserves s d).2.1
  have hbound1 : ∀ n i, hmGet (s.upsert_dataset d).1.variables_by_name n = some i →
      i < (s.upsert_dataset d).1.variables_index.length := by
    rw [hvarmap, hvaridx]
    exact hs.var_id_lt
  obtain ⟨hvle, hvlen, hvbound⟩ := upsert_variable_facts (s.upsert_dataset d).1 v hbound1
  have htvfd : ((s.upsert_dataset d).1.upsert_variable v).1.available_variables =
      s.available_variables := by
    rw [(upsert_variable_preserves (s.upsert_dataset d).1 v).2.2.1]
    exact (upsert_dataset_preserves s d).2.2.1
  have htdfv : ((s.upsert_dataset d).1.upsert_variable v).1.available_datasets =
      s.available_datasets := by
    rw [(upsert_variable_preserves (s.upsert_dataset d).1 v).2.2.2]
    exact (upsert_dataset_preserves s d).2.2.2
  have htdsidx : ((s.upsert_dataset d).1.upsert_variable v).1.datasets_index =
      (s.upsert_dataset d).1.datasets_index :=
    (upsert_variable_preserves (s.upsert_dataset d).1 v).2.1
  have htdsmap : ((s.upsert_dataset d).1.upsert_variable v).1.datasets_by_name =
      (s.upsert_dataset d).1.datasets_by_name :=
    (upsert_variable_preserves (s.upsert_dataset d).1 v).1
  rw [htvfd] at hv
  rw [htdfv] at hd
  refine ⟨?_, ?_, ?_, ?_, ?_⟩
  · show vout.length = ((s.upsert_dataset d).1.upsert_variable v).1.datasets_index.length
    rw [adjUpdate_length hv, hs.vfd_len, htdsidx, hdlen]
  · show dout.length = ((s.upsert_dataset d).1.upsert_variable v).1.variables_index.length
    rw [adjUpdate_length hd, hs.dfv_len, hvlen, hvaridx]
  · show ∀ n i,
      hmGet ((s.upsert_dataset d).1.upsert_variable v).1.datasets_by_name n = some i →
      i < ((s.upsert_dataset d).1.upsert_variable v).1.datasets_index.length
    rw [htdsmap, htdsidx]
    exact hdbound
  · exact hvbound
  · intro a b
    show adjMem vout a b ↔ adjMem dout b a
    rw [adjUpdate_mem_iff hv a b, adjUpdate_mem_iff hd b a, hs.agree a b]
    tauto

theorem storeInv_of_reach {s : MetadataEntities} (h : Reach s) : StoreInv s := by
  induction h with
  | base => exact storeInv_new
  | step _ hadd ih => exact storeInv_step ih hadd

/-- **C1.** For every MetadataEntities store reachable by any sequence of
`add_dataset_variable` calls from the empty store, and for every dataset id d
and variable id v: the set VariablesForDataset holds v for d if and only if
the set DatasetsForVariable holds d for v. -/
theorem adjacency_sides_agree (s : MetadataEntities) (hs : Reach s) (d v : Nat) :
    s.available_variables.holdsPair d v ↔ s.available_datasets.holdsPair v d :=
  (storeInv_of_reach hs).agree d v

/-- Witness for C1 at a concrete input: `sampleStore` is reachable in one
`add_dataset_variable` step from the empty store, and the agreement holds
there at (dataset 0, variable 0). -/
theorem adjacency_sides_agree_witness :
    sampleStore.available_variables.holdsPair 0 0 ↔
      sampleStore.available_datasets.holdsPair 0 0 :=
  adjacency_sides_agree sampleStore (Reach.step Reach.base rfl) 0 0

end Cimdea

namespace Cimdea

/-! ## Claim C7: path conventions -/

theorem strAppend_assoc (a b c : String) : a ++ b ++ c = a ++ (b ++ c) := by
  rcases a with ⟨a⟩
  rcases b with ⟨b⟩
  rcases c with ⟨c⟩
  show String.mk (a ++ b ++ c) = String.mk (a ++ (b ++ c))
  rw [List.append_assoc]

theorem strLit_parquet_dir (t : String) :
    ("/" : String) ++ ("parquet" ++ ("/" ++ t)) = "/parquet/" ++ t := by
  rw [← strAppend_assoc, ← strAppend_assoc]
  have hl : ("/" : String) ++ "parquet" ++ "/" = "/parquet/" := rfl
  rw [hl]

theorem strLit_parquet_ext : ("." : String) ++ "parquet" = ".parquet" := rfl

theorem strLit_datgz_ext : ("." : String) ++ "dat.gz" = ".dat.gz" := rfl

/-- **C7.** For every Context with data root R and every dataset name ds,
`paths_from_dataset_name(ds, Parquet)` returns a map with exactly one entry
per record type of the collection, keyed by the record-type code, whose value
is `R/parquet/<ds>/<ds>_<product_lower>.<RT>.parquet` with `<RT>` the
uppercase one-letter code; for the fixed-width input type it returns a single
entry keyed by the empty string with value `R/<ds>_<product_lower>.dat.gz`. -/
theorem paths_from_dataset_name_spec (ctx : Context) (R ds : String)
    (h : ctx.data_root = some R) :
    ctx.paths_from_dataset_name ds InputType.Parquet =
      some (ctx.settings.record_types.map (fun rt =>
        (rt.1, R ++ "/parquet/" ++ ds ++ "/" ++ ds ++ "_" ++ asciiLower ctx.settings.name
          ++ "." ++ asciiUpper rt.1 ++ ".parquet"))) ∧
    ctx.paths_from_dataset_name ds InputType.Fw =
      some [("", R ++ "/" ++ ds ++ "_" ++ asciiLower ctx.settings.name ++ ".dat.gz")] := by
  constructor
  · unfold Context.paths_from_dataset_name
    rw [h]
    dsimp only [InputType.fileExtension, InputType.data_sub_directory]
    refine congrArg some
      (congrArg (fun f => List.map f ctx.settings.record_types) (funext fun rt => ?_))
    refine congrArg (Prod.mk rt.1) ?_
    simp only [pathJoin, MicroDataCollection.base_filename_for_dataset_and_rectype,
      MicroDataCollection.base_filename_for_dataset, strAppend_assoc, strLit_parquet_dir,
      strLit_parquet_ext]
  · unfold Context.paths_from_dataset_name
    rw [h]
    dsimp only [InputType.fileExtension, InputType.data_sub_directory]
    refine congrArg some ?_
    refine congrArg (fun p => [("", p)]) ?_
    simp only [pathJoin, MicroDataCollection.base_filename_for_dataset,
      strAppend_assoc, strLit_datgz_ext]

/-- Witness for C7 at a concrete input: on the "usa" collection with data root
"test/data_root" (the `conventions.rs` test fixture), the Parquet paths for
"us2015b" are exactly the H and P files the repository test expects, and the
fixed-width path is the single dat.gz file keyed by the empty string. -/
theorem paths_from_dataset_name_spec_witness :
    sampleUsaContext.paths_from_dataset_name "us2015b" InputType.Parquet =
      some [("H", "test/data_root/parquet/us2015b/us2015b_usa.H.parquet"),
            ("P", "test/data_root/parquet/us2015b/us2015b_usa.P.parquet")] ∧
    sampleUsaContext.paths_from_dataset_name "us2015b" InputType.Fw =
      some [("", "test/data_root/us2015b_usa.dat.gz")] := by
  have h := paths_from_dataset_name_spec sampleUsaContext "test/data_root" "us2015b" rfl
  refine ⟨?_, ?_⟩
  · rw [h.1]
    rfl
  · rw [h.2]
    rfl

end Cimdea
